import Mathlib

/-!
Verification of the airflow-multirepo-deploy plugin against its
natural-language specification.

The repository's frontend (React/TypeScript under
`multirepo-deploy-plugin/ui/src`) is embedded shallowly below: each
event handler or render expression becomes a pure Lean function over the
component's state.  The deployment-orchestration backend (credential
resolver, inventory scan, deploy engine, branch cleanup, provisioner) is
not part of the provided sources; where a claim depends on it, the
relevant operation is modelled from the specification text and the
definition's doc comment says so explicitly.
-/

namespace MultirepoDeploy

/-! ## Data model shared by the UI pages

`Repository` mirrors the TypeScript interface declared identically in
`pages/Deploy.tsx` and `pages/RepoList.tsx`: the nullable string fields
become `Option String`, `remotes` is a list of (name, url) pairs. -/

structure Repository where
  folder : String
  active_branch : Option String
  committed_date_str : Option String
  sha : Option String
  author : Option String
  commit_message : Option String
  remotes : List (String × String)
  local_branches : List String
  remote_branches : List String
deriving Repr, DecidableEq

/-- JavaScript truthiness of a possibly-null string: `null`, `undefined`
and `""` are falsy, every other string is truthy. -/
def jsTruthy (o : Option String) : Bool :=
  match o with
  | none => false
  | some s => !s.data.isEmpty

/-- JavaScript `o || d` for a possibly-null string `o`: returns `d`
when `o` is falsy (null or empty), otherwise the string itself. -/
def jsOr (o : Option String) (d : String) : String :=
  match o with
  | none => d
  | some s => if s.data.isEmpty then d else s

/-- React rendering of a possibly-null string child: `null` renders as
nothing, i.e. the empty string. -/
def renderOptional (o : Option String) : String :=
  o.getD ""

/-! ## RepoList table row (`pages/RepoList.tsx`, repository table body)

The row renders `repo.active_branch || "-"`, `repo.committed_date_str
|| "-"`, `repo.sha ? sha.substring(0, 8) : "-"` and
`repo.author || "-"`. -/

structure RepoListRow where
  folderCell : String
  branchCell : String
  committedCell : String
  shaCell : String
  authorCell : String
deriving Repr, DecidableEq

/-- Embedding of one row of the repository table in `RepoList.tsx`. -/
def repoListRow (r : Repository) : RepoListRow :=
  { folderCell := r.folder
    branchCell := jsOr r.active_branch "-"
    committedCell := jsOr r.committed_date_str "-"
    shaCell := if jsTruthy r.sha then (r.sha.getD "").take 8 else "-"
    authorCell := jsOr r.author "-" }

/-- Embedding of the "Repository Details" table of `pages/Deploy.tsx`:
each nullable field is rendered directly as a React child, so a null
value renders as the empty string. -/
def deployDetails (r : Repository) : List (String × String) :=
  [ ("Git hash", renderOptional r.sha)
  , ("Commit message", renderOptional r.commit_message)
  , ("Author", renderOptional r.author)
  , ("Committed", renderOptional r.committed_date_str)
  , ("Active branch", renderOptional r.active_branch) ]

/-! ## Deploy page handlers (`pages/Deploy.tsx`) -/

/-- An HTTP request as assembled by the client: URL, method and the
multipart form entries appended to the `FormData` object. -/
structure HttpRequest where
  url : String
  method : String
  form : List (String × String)
deriving Repr, DecidableEq

/-- Embedding of `handleDeploy` in `Deploy.tsx`: guarded by
`if (!folder || !selectedBranch || !data) return;`, then POSTs to
`/deployment/deploy/<folder>` a `FormData` with the single entry
`branches = selectedBranch`.  Returns the issued request, or `none`
when the guard returns early. -/
def handleDeploy (folder selectedBranch : String) (hasData : Bool) :
    Option HttpRequest :=
  if folder = "" ∨ selectedBranch = "" ∨ hasData = false then none
  else some
    { url := "/deployment/deploy/" ++ folder
      method := "POST"
      form := [("branches", selectedBranch)] }

/-- Embedding of the initial branch selection in `fetchDeployData`
(`Deploy.tsx`): `branches.includes(selected) ? selected :
(branches[0] ?? "")`. -/
def initialBranch (branches : List String) (selected : String) : String :=
  if branches.contains selected then selected else branches.headD ""

/-- Embedding of the `disabled` expression of the "Cleanup Branches"
button in `Deploy.tsx`: `cleaningUp || !data?.repo?.local_branches ||
data.repo.local_branches.length <= 1`.  The `Option` argument models
the optional-chaining access (missing `data` or missing field). -/
def cleanupButtonDisabled (cleaningUp : Bool)
    (localBranches : Option (List String)) : Bool :=
  cleaningUp || localBranches.isNone ||
    decide ((localBranches.getD []).length ≤ 1)

/-- Embedding of a user click on the "Cleanup Branches" button: a
disabled button fires no handler, and `handleCleanupBranches` itself
returns early on an empty folder; otherwise it POSTs to
`/deployment/api/cleanup-branches/<folder>`. -/
def cleanupClick (folder : String) (cleaningUp : Bool)
    (localBranches : Option (List String)) : Option String :=
  if cleanupButtonDisabled cleaningUp localBranches then none
  else if folder = "" then none
  else some ("/deployment/api/cleanup-branches/" ++ folder)

/-- Embedding of the fetch-error banner condition in `Deploy.tsx`:
`data?.errors && Array.isArray(data.errors) &&
data.errors.some((error) => Boolean(error?.trim()))` — an error string
is shown-worthy when it has a character surviving `trim`, i.e. a
non-whitespace character. -/
def showsFetchErrors (errors : Option (List String)) : Bool :=
  match errors with
  | none => false
  | some es => es.any (fun e => e.data.any (fun c => !c.isWhitespace))

/-! ## Add-repository modal (`context/colorMode/useColorMode.tsx`,
`AddRepoModal`) -/

inductive AddMethod where
  | ssh
  | github
deriving Repr, DecidableEq

structure AddRepoModalState where
  method : AddMethod
  githubAvailable : Bool
deriving Repr, DecidableEq

/-- Embedding of the effect of `checkGithubAvailability` on the modal
state: `setGithubAvailable(data.available)`, and `setMethod("ssh")`
when the probe reported unavailable. -/
def applyGithubAvailability (st : AddRepoModalState) (avail : Bool) :
    AddRepoModalState :=
  { st with
    githubAvailable := avail
    method := if avail then st.method else AddMethod.ssh }

/-- Embedding of the `disabled` expression of the "GitHub App" tab
button: `disabled={!githubAvailable}`. -/
def githubTabDisabled (st : AddRepoModalState) : Bool :=
  !st.githubAvailable

/-! ## GitHub-availability probe (backend) -/

structure GitHubAppSettings where
  appId : Option String
  privateKey : Option String
  installationId : Option String
deriving Repr, DecidableEq

/-- Modelled from the spec: the backend that answers
`/deployment/api/repos/github-available` is not among the provided
sources; per the spec it is "a GitHub-availability probe that reports
whether all three GitHub App settings are present" (app id, base64
private key, installation id). -/
def githubAvailableProbe (s : GitHubAppSettings) : Bool :=
  s.appId.isSome && s.privateKey.isSome && s.installationId.isSome

/-! ## Repository Provisioner (backend, modelled from the spec §4.6) -/

/-- Filesystem effects a provisioning call may perform, in order. -/
inductive FsEffect where
  | writeKeyFile (path : String)
  | cloneInto (folder : String)
deriving Repr, DecidableEq

/-- Outcome of a provisioning call. -/
inductive ProvisionOutcome where
  | ok
  | rejected (reason : String)
deriving Repr, DecidableEq

/-- Result of a provisioning call: its outcome together with the list
of filesystem effects it performed. -/
structure ProvisionResult where
  outcome : ProvisionOutcome
  effects : List FsEffect
deriving Repr, DecidableEq

/-- True when the folder name contains a path separator character. -/
def hasPathSeparator (s : String) : Bool :=
  s.data.contains '/' || s.data.contains '\\'

/-- True when a character list contains two consecutive dots. -/
def hasDotDot : List Char → Bool
  | [] => false
  | c :: cs => (['.', '.'].isPrefixOf (c :: cs)) || hasDotDot cs

/-- True when the folder name contains a `..` sequence. -/
def containsDotDot (s : String) : Bool :=
  hasDotDot s.data

/-- Modelled from the spec: the provisioner backend is not among the
provided sources; per §4.6 "Folder-name validation is mandatory and
identical for both paths: reject names containing path separators,
`..` segments". -/
def validFolderName (s : String) : Bool :=
  !(hasPathSeparator s || containsDotDot s)

/-- Modelled from the spec: `addViaSSH(repoUrl, folderName, sshKeyBytes)`
(§4.6) is not among the provided sources.  It validates the folder
name first; only then does it persist the key to `<folderName>.key`
and clone over SSH. -/
def addViaSSH (repoUrl folderName : String) : ProvisionResult :=
  if validFolderName folderName then
    { outcome := ProvisionOutcome.ok
      effects := [ FsEffect.writeKeyFile (folderName ++ ".key")
                 , FsEffect.cloneInto folderName ] }
  else
    { outcome := ProvisionOutcome.rejected "invalid folder name"
      effects := [] }

/-- Modelled from the spec: `addViaGitHubApp(repoFullName, folderName)`
(§4.6) is not among the provided sources.  It applies the same
folder-name validation first, then requires the GitHub App to be
configured and the repository to be in the installation's accessible
set, and only then clones over HTTPS. -/
def addViaGitHubApp (repoFullName folderName : String)
    (configured : Bool) (accessible : List String) : ProvisionResult :=
  if !validFolderName folderName then
    { outcome := ProvisionOutcome.rejected "invalid folder name"
      effects := [] }
  else if !configured then
    { outcome := ProvisionOutcome.rejected "github app not configured"
      effects := [] }
  else if !(accessible.contains repoFullName) then
    { outcome := ProvisionOutcome.rejected "repository not accessible"
      effects := [] }
  else
    { outcome := ProvisionOutcome.ok
      effects := [FsEffect.cloneInto folderName] }

/-! ## Deploy Engine (backend, modelled from the spec §4.4) -/

/-- Git commands the deploy engine may run against a working tree. -/
inductive GitCmd where
  | fetch
  | checkoutCreate (branch : String)
  | hardReset (ref : String)
  | checkout (branch : String)
deriving Repr, DecidableEq

/-- Whether a git command mutates the working tree or its refs. -/
def GitCmd.mutating : GitCmd → Bool
  | GitCmd.fetch => true
  | GitCmd.checkoutCreate _ => true
  | GitCmd.hardReset _ => true
  | GitCmd.checkout _ => true

/-- State of one repository's working tree, as far as the deploy
engine observes and mutates it. -/
structure RepoGitState where
  headSha : String
  activeBranch : Option String
  localBranches : List String
  remoteBranches : List String
  branchTips : List (String × String)
deriving Repr, DecidableEq

/-- Commit sha at the tip of a branch, per the state's tip table. -/
def RepoGitState.tipOf (st : RepoGitState) (branch : String) : String :=
  (st.branchTips.lookup branch).getD st.headSha

/-- A deploy request: repository folder name and target branch,
constructed from the inbound form data (spec §3). -/
structure DeployRequest where
  folder : String
  branch : String
deriving Repr, DecidableEq

/-- Outcome of a deploy (spec §3): Success with the resolved sha,
Rejected with a policy reason, or Failed with error detail. -/
inductive DeploymentResult where
  | success (sha : String)
  | rejected (reason : String)
  | failed (detail : String)
deriving Repr, DecidableEq

/-- Deploy engine configuration: the optional branch allow-list and
optional post-deploy hook (spec §6). -/
structure DeployConfig where
  allowedBranches : Option (List String)
  postDeployHook : Option String
deriving Repr, DecidableEq

/-- Modelled from the spec: steps 3-6 of the deploy engine (§4.4),
which is not among the provided sources.  `fetchOk` models the network
outcome of the fetch.  A fetch failure aborts only when the requested
branch does not already exist locally; a branch present as a
remote-tracking ref is checked out with a hard reset to its tip; a
purely local branch is checked out as is; a branch known to neither
side fails. -/
def deployRun (cfg : DeployConfig) (fetchOk : Bool) (st : RepoGitState)
    (branch : String) : DeploymentResult × RepoGitState × List GitCmd :=
  if !fetchOk && !(st.localBranches.contains branch) then
    (DeploymentResult.failed "fetch failed and branch not local", st,
      [GitCmd.fetch])
  else if st.remoteBranches.contains branch then
    let tip := st.tipOf branch
    let st' : RepoGitState :=
      { st with
        headSha := tip
        activeBranch := some branch
        localBranches :=
          if st.localBranches.contains branch then st.localBranches
          else branch :: st.localBranches }
    (DeploymentResult.success tip, st',
      [GitCmd.fetch, GitCmd.checkoutCreate branch, GitCmd.hardReset branch])
  else if st.localBranches.contains branch then
    let tip := st.tipOf branch
    (DeploymentResult.success tip,
      { st with headSha := tip, activeBranch := some branch },
      [GitCmd.fetch, GitCmd.checkout branch])
  else
    (DeploymentResult.failed "branch not found", st, [GitCmd.fetch])

/-- Modelled from the spec: `deploy(request) -> DeploymentResult`
(§4.4), not among the provided sources.  Step 2: "If a branch
allow-list is configured, reject with `Rejected(\x22branch not
allowed\x22)` when the requested branch is not a member — this check
happens before any mutating git command runs." -/
def deploy (cfg : DeployConfig) (fetchOk : Bool) (st : RepoGitState)
    (req : DeployRequest) : DeploymentResult × RepoGitState × List GitCmd :=
  match cfg.allowedBranches with
  | some allow =>
    if req.branch ∈ allow then deployRun cfg fetchOk st req.branch
    else (DeploymentResult.rejected "branch not allowed", st, [])
  | none => deployRun cfg fetchOk st req.branch

/-! ## Branch Cleanup (backend, modelled from the spec §4.5) -/

/-- Modelled from the spec: `cleanup(folderName) ->
[deletedBranchNames], activeBranch` (§4.5), not among the provided
sources.  It enumerates local branches, excludes the active one (never
deleted), and deletes the rest best-effort: `undeletable` models the
branches the underlying git tooling refuses to delete, which are
recorded as not deleted while the rest proceed. -/
def cleanup (st : RepoGitState) (undeletable : List String) :
    (List String × Option String) × RepoGitState :=
  let deleted := st.localBranches.filter
    (fun b => decide (st.activeBranch ≠ some b ∧ b ∉ undeletable))
  let remaining := st.localBranches.filter
    (fun b => decide (st.activeBranch = some b ∨ b ∈ undeletable))
  ((deleted, st.activeBranch), { st with localBranches := remaining })

/-! ## Repository Inventory (backend, modelled from the spec §4.2) -/

/-- Input to scanning a single repository: its folder, working-tree
state, and the outcome of the non-destructive remote ref
listing/fetch, which may fail with a network error message. -/
structure ScanInput where
  folder : String
  repo : RepoGitState
  fetchOutcome : Except String Unit
deriving Repr

/-- One repository's entry in the status snapshot, as the JSON status
contract exposes it: repository data plus any collected per-repository
scan errors. -/
structure ScanEntry where
  folder : String
  active_branch : Option String
  sha : Option String
  local_branches : List String
  remote_branches : List String
  errors : List String
deriving Repr, DecidableEq

/-- Modelled from the spec: scanning one repository (§4.2), not among
the provided sources.  A network failure of the remote listing/fetch
is collected as a non-fatal `ScanError` attached to this repository's
entry; the local data is still reported. -/
def scanOne (inp : ScanInput) : ScanEntry :=
  { folder := inp.folder
    active_branch := inp.repo.activeBranch
    sha := some inp.repo.headSha
    local_branches := inp.repo.localBranches
    remote_branches := inp.repo.remoteBranches
    errors :=
      match inp.fetchOutcome with
      | Except.ok _ => []
      | Except.error e => [e] }

/-- Modelled from the spec: `scan(rootDir) -> [Repository],
[ScanError]` (§4.2), not among the provided sources.  Every discovered
repository yields exactly one entry; per-repository errors never abort
the scan. -/
def scan (inputs : List ScanInput) : List ScanEntry :=
  inputs.map scanOne

/-! ## Client router (`main.tsx`) and folder extraction (`Deploy.tsx`)

Both call `hash.match(/#\x2fstatus\x2f(.+)$/)`.  JavaScript `match`
scans for the leftmost start position where the pattern matches; `.`
does not match line terminators and `$` (without the `m` flag) matches
only at the end of the input, so the pattern matches at position `i`
exactly when the input has `#/status/` at `i` and everything after it
up to the end is a non-empty run of non-line-terminator characters.
Capture group 1 is that run. -/

/-- Character list of the literal part of the route pattern. -/
def statusPat : List Char := ['#', '/', 's', 't', 'a', 't', 'u', 's', '/']

/-- Whether JavaScript regex `.` (no `s` flag) matches a character:
everything except the line terminators LF, CR, U+2028, U+2029. -/
def jsDotMatches (c : Char) : Bool :=
  !(c == '\n' || c == '\r' || c.val == 0x2028 || c.val == 0x2029)

/-- Leftmost-match search for `#/status/(.+)$` over a character list,
returning capture group 1 on success. -/
def capAux : List Char → Option (List Char)
  | [] => none
  | c :: cs =>
    if statusPat.isPrefixOf (c :: cs)
        && !((c :: cs).drop statusPat.length).isEmpty
        && ((c :: cs).drop statusPat.length).all jsDotMatches
    then some ((c :: cs).drop statusPat.length)
    else capAux cs

/-- Embedding of `hash.match(/#\x2fstatus\x2f(.+)$/)?.[1]`: the first
capture group of the route regex, when the hash matches. -/
def statusCapture (s : String) : Option String :=
  (capAux s.data).map (fun cs => String.mk cs)

/-- The two views the client router can render. -/
inductive RouteView where
  | repos
  | deploy
deriving Repr, DecidableEq

/-- Embedding of `Router.handleHashChange` in `main.tsx`: render the
Deploy view when `statusMatch && statusMatch[1]` is truthy, the
repository list otherwise. -/
def routerView (hash : String) : RouteView :=
  match statusCapture hash with
  | some f => if f.data.isEmpty then RouteView.repos else RouteView.deploy
  | none => RouteView.repos

/-- Embedding of the folder extraction in `Deploy.tsx`:
`window.location.hash.match(/#\x2fstatus\x2f(.+)$/)?.[1] || ""`. -/
def deployFolder (hash : String) : String :=
  jsOr (statusCapture hash) ""

/-! ## Theorems -/

/-- A non-empty string has a non-empty character list. -/
theorem data_isEmpty_eq_false {s : String} (h : s ≠ "") :
    s.data.isEmpty = false := by
  cases hd : s.data with
  | nil => exact absurd (String.ext hd) h
  | cons a l => rfl

/-- C1: every folder name containing a path separator or a `..`
segment is rejected by both provisioning paths — `addViaSSH` and
`addViaGitHubApp` share the folder-name validation, answer
`rejected "invalid folder name"`, and perform no filesystem effect. -/
theorem provisionRejectsTraversal (repoUrl repoFullName folderName : String)
    (configured : Bool) (accessible : List String)
    (h : hasPathSeparator folderName = true ∨ containsDotDot folderName = true) :
    (addViaSSH repoUrl folderName).outcome
        = ProvisionOutcome.rejected "invalid folder name"
      ∧ (addViaSSH repoUrl folderName).effects = []
      ∧ (addViaGitHubApp repoFullName folderName configured accessible).outcome
        = ProvisionOutcome.rejected "invalid folder name"
      ∧ (addViaGitHubApp repoFullName folderName configured accessible).effects
        = [] := by
  have hv : validFolderName folderName = false := by
    unfold validFolderName
    rcases h with h | h <;> simp [h]
  unfold addViaSSH addViaGitHubApp
  rw [hv]
  simp

/-- Witness for C1 at the concrete traversal name `../evil`. -/
theorem provisionRejectsTraversal_witness :
    (addViaSSH "git@github.com:acme/dags.git" "../evil").outcome
        = ProvisionOutcome.rejected "invalid folder name"
      ∧ (addViaSSH "git@github.com:acme/dags.git" "../evil").effects = []
      ∧ (addViaGitHubApp "acme/dags" "../evil" true ["acme/dags"]).outcome
        = ProvisionOutcome.rejected "invalid folder name"
      ∧ (addViaGitHubApp "acme/dags" "../evil" true ["acme/dags"]).effects = [] :=
  provisionRejectsTraversal "git@github.com:acme/dags.git" "acme/dags" "../evil"
    true ["acme/dags"] (Or.inr (by decide))

/-- C2: with a configured allow-list not containing the requested
branch, `deploy` answers `Rejected("branch not allowed")`, runs no git
command at all (in particular no mutating one), and leaves the working
tree — including its HEAD sha — unchanged. -/
theorem deployRejectsDisallowedBranch (cfg : DeployConfig) (fetchOk : Bool)
    (st : RepoGitState) (req : DeployRequest) (allow : List String)
    (hcfg : cfg.allowedBranches = some allow) (hbr : req.branch ∉ allow) :
    (deploy cfg fetchOk st req).1 = DeploymentResult.rejected "branch not allowed"
      ∧ (deploy cfg fetchOk st req).2.1 = st
      ∧ (deploy cfg fetchOk st req).2.1.headSha = st.headSha
      ∧ (deploy cfg fetchOk st req).2.2 = []
      ∧ ∀ c ∈ (deploy cfg fetchOk st req).2.2, c.mutating = false := by
  simp [deploy, hcfg, hbr]

/-- Witness for C2 on the spec's §8 scenario: allow-list
`["origin/main"]`, requested branch `origin/dev`. -/
theorem deployRejectsDisallowedBranch_witness :
    (deploy ⟨some ["origin/main"], none⟩ true
        ⟨"sha0", some "main", ["main"], ["origin/main"], [("origin/main", "sha1")]⟩
        ⟨"teamA", "origin/dev"⟩).1 = DeploymentResult.rejected "branch not allowed"
      ∧ (deploy ⟨some ["origin/main"], none⟩ true
          ⟨"sha0", some "main", ["main"], ["origin/main"], [("origin/main", "sha1")]⟩
          ⟨"teamA", "origin/dev"⟩).2.1.headSha = "sha0"
      ∧ (deploy ⟨some ["origin/main"], none⟩ true
          ⟨"sha0", some "main", ["main"], ["origin/main"], [("origin/main", "sha1")]⟩
          ⟨"teamA", "origin/dev"⟩).2.2 = [] := by
  have h := deployRejectsDisallowedBranch ⟨some ["origin/main"], none⟩ true
    ⟨"sha0", some "main", ["main"], ["origin/main"], [("origin/main", "sha1")]⟩
    ⟨"teamA", "origin/dev"⟩ ["origin/main"] rfl (by decide)
  exact ⟨h.1, h.2.2.1, h.2.2.2.1⟩

/-- C3: `cleanup` returns the deleted branch names together with the
unchanged active branch; the branch active at the time of the call is
never deleted and survives in the repository, and the returned list is
exactly the set of local branches actually removed. -/
theorem cleanupPreservesActive (st : RepoGitState) (undeletable : List String) :
    (cleanup st undeletable).1.2 = st.activeBranch
      ∧ (cleanup st undeletable).2.activeBranch = st.activeBranch
      ∧ (∀ b ∈ (cleanup st undeletable).1.1, st.activeBranch ≠ some b)
      ∧ (∀ a, st.activeBranch = some a → a ∈ st.localBranches →
          a ∈ (cleanup st undeletable).2.localBranches)
      ∧ (∀ b, b ∈ (cleanup st undeletable).1.1 ↔
          b ∈ st.localBranches ∧ b ∉ (cleanup st undeletable).2.localBranches) := by
  refine ⟨rfl, rfl, ?_, ?_, ?_⟩
  · intro b hb
    unfold cleanup at hb
    simp only [List.mem_filter, decide_eq_true_eq] at hb
    exact hb.2.1
  · intro a ha hm
    unfold cleanup
    simp only [List.mem_filter, decide_eq_true_eq]
    exact ⟨hm, Or.inl ha⟩
  · intro b
    unfold cleanup
    simp only [List.mem_filter, decide_eq_true_eq]
    constructor
    · rintro ⟨hl, hna, hnu⟩
      exact ⟨hl, fun hc => hc.2.elim (fun h => hna h) (fun h => hnu h)⟩
    · rintro ⟨hl, hnr⟩
      refine ⟨hl, ?_, ?_⟩
      · intro h
        exact hnr ⟨hl, Or.inl h⟩
      · intro h
        exact hnr ⟨hl, Or.inr h⟩

/-- Witness for C3 on the spec's §8 scenario: branches
`["main", "feature-x"]` with `main` active. -/
theorem cleanupPreservesActive_witness :
    (cleanup ⟨"sha0", some "main", ["main", "feature-x"], [], []⟩ []).1.2
        = some "main"
      ∧ (some "main" : Option String) ≠ some "feature-x"
      ∧ "main" ∈ (cleanup ⟨"sha0", some "main", ["main", "feature-x"], [], []⟩
          []).2.localBranches := by
  have h := cleanupPreservesActive
    ⟨"sha0", some "main", ["main", "feature-x"], [], []⟩ []
  exact ⟨h.1, h.2.2.1 "feature-x" (by decide), h.2.2.2.1 "main" rfl (by decide)⟩

/-- C4: an inventory scan yields exactly one status entry per
repository; a repository whose remote fetch fails still contributes
its entry, carrying the network error as a non-fatal scan error next
to its otherwise-successful local data, and the client's error banner
condition surfaces such an error. -/
theorem scanErrorsNonfatal (inputs : List ScanInput) (inp : ScanInput)
    (e : String) :
    (scan inputs).length = inputs.length
      ∧ (inp ∈ inputs → scanOne inp ∈ scan inputs)
      ∧ (inp.fetchOutcome = Except.error e →
          (scanOne inp).errors = [e]
            ∧ (scanOne inp).folder = inp.folder
            ∧ (scanOne inp).local_branches = inp.repo.localBranches
            ∧ (scanOne inp).active_branch = inp.repo.activeBranch)
      ∧ (inp.fetchOutcome = Except.error e →
          e.data.any (fun c => !c.isWhitespace) = true →
          showsFetchErrors (some (scanOne inp).errors) = true) := by
  refine ⟨by simp [scan], fun h => List.mem_map_of_mem scanOne h, ?_, ?_⟩
  · intro h
    simp [scanOne, h]
  · intro h he
    simp [showsFetchErrors, scanOne, h, he]

/-- Witness for C4 on the spec's §8 scenario: repository `teamC` with a
failed remote fetch but branch `main` available locally. -/
theorem scanErrorsNonfatal_witness :
    (scan [⟨"teamC", ⟨"sha0", some "main", ["main"], [], []⟩,
        Except.error "net down"⟩]).length = 1
      ∧ scanOne ⟨"teamC", ⟨"sha0", some "main", ["main"], [], []⟩,
          Except.error "net down"⟩
        ∈ scan [⟨"teamC", ⟨"sha0", some "main", ["main"], [], []⟩,
          Except.error "net down"⟩]
      ∧ (scanOne ⟨"teamC", ⟨"sha0", some "main", ["main"], [], []⟩,
          Except.error "net down"⟩).errors = ["net down"]
      ∧ showsFetchErrors (some (scanOne ⟨"teamC",
          ⟨"sha0", some "main", ["main"], [], []⟩,
          Except.error "net down"⟩).errors) = true := by
  have h := scanErrorsNonfatal
    [⟨"teamC", ⟨"sha0", some "main", ["main"], [], []⟩, Except.error "net down"⟩]
    ⟨"teamC", ⟨"sha0", some "main", ["main"], [], []⟩, Except.error "net down"⟩
    "net down"
  exact ⟨h.1, h.2.1 (List.mem_cons_self _ _), (h.2.2.1 rfl).1,
    h.2.2.2 rfl (by decide)⟩

/-- C5: a deploy initiated with a non-empty folder name, a selected
branch and fetched data issues a POST to the deploy endpoint of that
folder whose form-encoded body holds exactly one entry: the selected
branch. -/
theorem handleDeployRequestShape (folder branch : String)
    (hf : folder ≠ "") (hb : branch ≠ "") :
    handleDeploy folder branch true
        = some { url := "/deployment/deploy/" ++ folder, method := "POST",
                 form := [("branches", branch)] }
      ∧ ∀ req, handleDeploy folder branch true = some req →
          req.form.length = 1 := by
  have hcond : ¬(folder = "" ∨ branch = "" ∨ (true : Bool) = false) := by
    simp [hf, hb]
  constructor
  · unfold handleDeploy
    rw [if_neg hcond]
  · intro req hreq
    unfold handleDeploy at hreq
    rw [if_neg hcond] at hreq
    injection hreq with h
    subst h
    rfl

/-- Witness for C5 at folder `repo1` and branch `main`. -/
theorem handleDeployRequestShape_witness :
    handleDeploy "repo1" "main" true
        = some { url := "/deployment/deploy/repo1", method := "POST",
                 form := [("branches", "main")] }
      ∧ ({ url := "/deployment/deploy/repo1", method := "POST",
           form := [("branches", "main")] } : HttpRequest).form.length = 1 := by
  have h := handleDeployRequestShape "repo1" "main" (by decide) (by decide)
  exact ⟨h.1, h.2 _ h.1⟩

/-- C6: the status contract's repository view exposes the nullable
active branch, last-commit sha, author, commit message and committed
timestamp, the remotes as (name, url) pairs, and the local and remote
branch lists; both consuming pages render a repository whose nullable
fields are all null without failing — the list page falls back to "-"
and the details table renders them as empty output. -/
theorem repositoryNullableRendering (folder : String)
    (remotes : List (String × String)) (lb rb : List String) :
    repoListRow ⟨folder, none, none, none, none, none, remotes, lb, rb⟩
        = ⟨folder, "-", "-", "-", "-"⟩
      ∧ deployDetails ⟨folder, none, none, none, none, none, remotes, lb, rb⟩
        = [("Git hash", ""), ("Commit message", ""), ("Author", ""),
           ("Committed", ""), ("Active branch", "")]
      ∧ ∀ r : Repository, (repoListRow r).folderCell = r.folder :=
  ⟨rfl, rfl, fun _ => rfl⟩

/-- C7: the GitHub-availability flag is true exactly when the app id,
private key and installation id are all present, and a false flag
forces the add-repository modal onto the SSH method and disables the
GitHub App tab. -/
theorem githubAvailabilityGate (s : GitHubAppSettings)
    (st : AddRepoModalState) :
    (githubAvailableProbe s = true ↔
        s.appId.isSome = true ∧ s.privateKey.isSome = true
          ∧ s.installationId.isSome = true)
      ∧ (githubAvailableProbe s = false →
          (applyGithubAvailability st (githubAvailableProbe s)).method
              = AddMethod.ssh
            ∧ githubTabDisabled
                (applyGithubAvailability st (githubAvailableProbe s)) = true) := by
  constructor
  · simp [githubAvailableProbe, and_assoc]
  · intro h
    rw [h]
    exact ⟨rfl, rfl⟩

/-- Witness for C7: settings with a missing private key force the modal
opened on the GitHub tab back to SSH and disable the tab. -/
theorem githubAvailabilityGate_witness :
    (applyGithubAvailability ⟨AddMethod.github, true⟩
        (githubAvailableProbe ⟨some "42", none, some "7"⟩)).method
        = AddMethod.ssh
      ∧ githubTabDisabled (applyGithubAvailability ⟨AddMethod.github, true⟩
          (githubAvailableProbe ⟨some "42", none, some "7"⟩)) = true :=
  (githubAvailabilityGate ⟨some "42", none, some "7"⟩
    ⟨AddMethod.github, true⟩).2 rfl

/-- C9: the initially selected branch after a status fetch is
`form.selected` when it occurs in `form.branches`, otherwise the first
branch, otherwise the empty string (`headD ""`); and `handleDeploy`
issues a request only when folder, selected branch and fetched data
are all present. -/
theorem initialBranchSelection (branches : List String)
    (selected folder branch : String) (hasData : Bool) :
    (selected ∈ branches → initialBranch branches selected = selected)
      ∧ (selected ∉ branches →
          initialBranch branches selected = branches.headD "")
      ∧ (∀ req, handleDeploy folder branch hasData = some req →
          folder ≠ "" ∧ branch ≠ "" ∧ hasData = true) := by
  refine ⟨?_, ?_, ?_⟩
  · intro h
    unfold initialBranch
    rw [if_pos (show branches.contains selected = true from List.elem_iff.mpr h)]
  · intro h
    unfold initialBranch
    rw [if_neg (show ¬branches.contains selected = true from
      fun hc => h (List.elem_iff.mp hc))]
  · intro req hreq
    unfold handleDeploy at hreq
    by_cases hc : folder = "" ∨ branch = "" ∨ hasData = false
    · rw [if_pos hc] at hreq
      cases hreq
    · push_neg at hc
      exact ⟨hc.1, hc.2.1, Bool.ne_false_iff.mp hc.2.2⟩

/-- Witness for C9: a selected branch that is (resp. is not) among the
fetched branches, and a concrete issued deploy request. -/
theorem initialBranchSelection_witness :
    initialBranch ["main", "dev"] "dev" = "dev"
      ∧ initialBranch ["main", "dev"] "stale" = "main"
      ∧ ("repo1" : String) ≠ "" ∧ ("dev" : String) ≠ "" := by
  have h1 := initialBranchSelection ["main", "dev"] "dev" "repo1" "dev" true
  have h2 := initialBranchSelection ["main", "dev"] "stale" "repo1" "dev" true
  have h3 := h1.2.2 ⟨"/deployment/deploy/repo1", "POST", [("branches", "dev")]⟩
    (by decide)
  exact ⟨h1.1 (by decide), h2.2.1 (by decide), h3.1, h3.2.1⟩

/-- C10: the cleanup control is disabled exactly when a cleanup is in
progress, the local branch list is missing, or it has at most one
entry; consequently no cleanup request is ever issued for a repository
with at most one local branch. -/
theorem cleanupButtonGuard (folder : String) (cleaningUp : Bool)
    (lb : Option (List String)) :
    (cleanupButtonDisabled cleaningUp lb = true ↔
        cleaningUp = true ∨ lb = none ∨ (lb.getD []).length ≤ 1)
      ∧ ((lb.getD []).length ≤ 1 → cleanupClick folder cleaningUp lb = none)
      ∧ (lb = none → cleanupClick folder cleaningUp lb = none)
      ∧ (cleaningUp = true → cleanupClick folder cleaningUp lb = none) := by
  have hiff : cleanupButtonDisabled cleaningUp lb = true ↔
      cleaningUp = true ∨ lb = none ∨ (lb.getD []).length ≤ 1 := by
    unfold cleanupButtonDisabled
    simp [Bool.or_eq_true, Option.isNone_iff_eq_none, decide_eq_true_eq,
      or_assoc]
  refine ⟨hiff, ?_, ?_, ?_⟩
  · intro h
    have hd := hiff.mpr (Or.inr (Or.inr h))
    simp [cleanupClick, hd]
  · intro h
    have hd := hiff.mpr (Or.inr (Or.inl h))
    simp [cleanupClick, hd]
  · intro h
    have hd := hiff.mpr (Or.inl h)
    simp [cleanupClick, hd]

/-- Witness for C10 at a repository with the single local branch
`main`. -/
theorem cleanupButtonGuard_witness :
    cleanupClick "teamA" false (some ["main"]) = none
      ∧ cleanupButtonDisabled false (some ["main"]) = true := by
  have h := cleanupButtonGuard "teamA" false (some ["main"])
  exact ⟨h.2.1 (by decide), h.1.mpr (Or.inr (Or.inr (by decide)))⟩

/-- Unfolding of `capAux` at a head position where the pattern
matches with a valid tail. -/
theorem capAux_cons_pos {c : Char} {cs : List Char}
    (h : (statusPat.isPrefixOf (c :: cs)
        && !((c :: cs).drop statusPat.length).isEmpty
        && ((c :: cs).drop statusPat.length).all jsDotMatches) = true) :
    capAux (c :: cs) = some ((c :: cs).drop statusPat.length) := by
  simp only [capAux]
  rw [if_pos h]

/-- Unfolding of `capAux` at a head position where the pattern does
not match: the search continues at the next position. -/
theorem capAux_cons_neg {c : Char} {cs : List Char}
    (h : (statusPat.isPrefixOf (c :: cs)
        && !((c :: cs).drop statusPat.length).isEmpty
        && ((c :: cs).drop statusPat.length).all jsDotMatches) = false) :
    capAux (c :: cs) = capAux cs := by
  simp only [capAux]
  rw [if_neg]
  simp [h]

/-- Soundness of the leftmost-match search: a successful capture
decomposes the input as some prefix, the literal `#/status/`, and the
non-empty captured tail of dot-matching characters. -/
theorem capAux_sound : ∀ (l f : List Char), capAux l = some f →
    ∃ pre, l = (pre ++ statusPat) ++ f ∧ f ≠ []
      ∧ f.all jsDotMatches = true := by
  intro l
  induction l with
  | nil =>
    intro f h
    simp [capAux] at h
  | cons c cs ih =>
    intro f h
    by_cases hc : (statusPat.isPrefixOf (c :: cs)
        && !((c :: cs).drop statusPat.length).isEmpty
        && ((c :: cs).drop statusPat.length).all jsDotMatches) = true
    · rw [capAux_cons_pos hc] at h
      injection h with hf
      subst hf
      simp only [Bool.and_eq_true] at hc
      obtain ⟨⟨hA, hB⟩, hC⟩ := hc
      obtain ⟨t, ht⟩ := List.isPrefixOf_iff_prefix.mp hA
      have hdrop : (c :: cs).drop statusPat.length = t := by
        rw [← ht]
        exact List.drop_left _ _
      refine ⟨[], ?_, ?_, hC⟩
      · rw [List.nil_append, hdrop]
        exact ht.symm
      · intro h0
        rw [h0] at hB
        simp at hB
    · rw [capAux_cons_neg (Bool.eq_false_iff.mpr hc)] at h
      obtain ⟨pre, hp, hne, hall⟩ := ih f h
      exact ⟨c :: pre, by simp [hp, List.cons_append], hne, hall⟩

/-- Completeness of the leftmost-match search: any decomposition into
a prefix, the literal `#/status/`, and a non-empty tail of
dot-matching characters makes the search succeed. -/
theorem capAux_isSome (pre : List Char) : ∀ (f : List Char), f ≠ [] →
    f.all jsDotMatches = true →
    (capAux ((pre ++ statusPat) ++ f)).isSome = true := by
  induction pre with
  | nil =>
    intro f hne hall
    rw [List.nil_append]
    obtain ⟨c, cs, hcs⟩ : ∃ c cs, statusPat ++ f = c :: cs := ⟨'#', _, rfl⟩
    have hpre : statusPat.isPrefixOf (c :: cs) = true := by
      rw [← hcs]
      exact List.isPrefixOf_iff_prefix.mpr ⟨f, rfl⟩
    have hdrop : (c :: cs).drop statusPat.length = f := by
      rw [← hcs]
      exact List.drop_left _ _
    have hfe : f.isEmpty = false := by
      cases f with
      | nil => exact absurd rfl hne
      | cons a l => rfl
    have hcond : (statusPat.isPrefixOf (c :: cs)
        && !((c :: cs).drop statusPat.length).isEmpty
        && ((c :: cs).drop statusPat.length).all jsDotMatches) = true := by
      rw [hpre, hdrop, hfe, hall]
      rfl
    rw [hcs, capAux_cons_pos hcond]
    rfl
  | cons c pre ih =>
    intro f hne hall
    have hshape : ((c :: pre) ++ statusPat) ++ f
        = c :: ((pre ++ statusPat) ++ f) := by
      simp [List.cons_append]
    rw [hshape]
    by_cases hc : (statusPat.isPrefixOf (c :: ((pre ++ statusPat) ++ f))
        && !((c :: ((pre ++ statusPat) ++ f)).drop statusPat.length).isEmpty
        && ((c :: ((pre ++ statusPat) ++ f)).drop
            statusPat.length).all jsDotMatches) = true
    · rw [capAux_cons_pos hc]
      rfl
    · rw [capAux_cons_neg (Bool.eq_false_iff.mpr hc)]
      exact ih f hne hall

/-- String-level soundness: a successful route capture decomposes the
hash around the literal `#/status/` with a non-empty captured folder. -/
theorem statusCapture_eq_some {hash f : String}
    (h : statusCapture hash = some f) :
    ∃ pre, hash = pre ++ "#/status/" ++ f ∧ f ≠ ""
      ∧ f.data.all jsDotMatches = true := by
  unfold statusCapture at h
  cases hc : capAux hash.data with
  | none =>
    rw [hc] at h
    cases h
  | some l =>
    rw [hc] at h
    injection h with hf
    subst hf
    obtain ⟨pre, hp, hne, hall⟩ := capAux_sound _ _ hc
    refine ⟨String.mk pre, ?_, ?_, hall⟩
    · apply String.ext
      rw [String.data_append, String.data_append]
      exact hp
    · intro h0
      exact hne (congrArg String.data h0)

/-- String-level completeness: a hash of the shape
`<pre>#/status/<f>` with `f` non-empty and free of line terminators
makes the route capture succeed. -/
theorem statusCapture_isSome_of (pre f : String) (hne : f ≠ "")
    (hall : f.data.all jsDotMatches = true) :
    ∃ g, statusCapture (pre ++ "#/status/" ++ f) = some g := by
  unfold statusCapture
  have hlit : ("#/status/" : String).data = statusPat := rfl
  have hdata : ((pre ++ "#/status/") ++ f).data
      = (pre.data ++ statusPat) ++ f.data := by
    rw [String.data_append, String.data_append, hlit]
  rw [hdata]
  have hs := capAux_isSome pre.data f.data
    (fun h0 => hne (String.ext h0)) hall
  cases hcap : capAux ((pre.data ++ statusPat) ++ f.data) with
  | none =>
    rw [hcap] at hs
    simp at hs
  | some l =>
    exact ⟨String.mk l, rfl⟩

/-- C8: the client router renders the Deploy view exactly when the URL
hash matches `#/status/<folder>` with a non-empty folder (JavaScript
regex semantics: the literal may start anywhere in the hash and the
captured folder runs to the end of the hash without line terminators);
every other hash — the empty one included — renders the repository
list, and the Deploy page extracts its folder name from the same
pattern. -/
theorem routerStatusPattern (hash : String) :
    (routerView hash = RouteView.deploy ↔
        ∃ pre f, hash = pre ++ "#/status/" ++ f ∧ f ≠ ""
          ∧ f.data.all jsDotMatches = true)
      ∧ (routerView hash = RouteView.repos ↔
          ¬∃ pre f, hash = pre ++ "#/status/" ++ f ∧ f ≠ ""
            ∧ f.data.all jsDotMatches = true)
      ∧ (routerView hash = RouteView.deploy →
          deployFolder hash ≠ ""
            ∧ ∃ pre, hash = pre ++ "#/status/" ++ deployFolder hash) := by
  have hmain : routerView hash = RouteView.deploy ↔
      ∃ pre f, hash = pre ++ "#/status/" ++ f ∧ f ≠ ""
        ∧ f.data.all jsDotMatches = true := by
    constructor
    · intro hv
      cases hc : statusCapture hash with
      | none =>
        unfold routerView at hv
        rw [hc] at hv
        simp at hv
      | some f =>
        obtain ⟨pre, hp, hne, hall⟩ := statusCapture_eq_some hc
        exact ⟨pre, f, hp, hne, hall⟩
    · rintro ⟨pre, f, hp, hne, hall⟩
      subst hp
      obtain ⟨g, hg⟩ := statusCapture_isSome_of pre f hne hall
      obtain ⟨pre', hp', hne', hall'⟩ := statusCapture_eq_some hg
      unfold routerView
      rw [hg]
      simp [data_isEmpty_eq_false hne']
  refine ⟨hmain, ?_, ?_⟩
  · constructor
    · intro hr hex
      have hd := hmain.mpr hex
      rw [hr] at hd
      cases hd
    · intro hnex
      cases hv : routerView hash with
      | repos => rfl
      | deploy => exact absurd (hmain.mp hv) hnex
  · intro hv
    cases hc : statusCapture hash with
    | none =>
      unfold routerView at hv
      rw [hc] at hv
      simp at hv
    | some f =>
      obtain ⟨pre, hp, hne, hall⟩ := statusCapture_eq_some hc
      have hdf : deployFolder hash = f := by
        unfold deployFolder
        rw [hc]
        unfold jsOr
        simp [data_isEmpty_eq_false hne]
      rw [hdf]
      exact ⟨hne, pre, hp⟩

/-- Witness for C8: the hash `#/status/repo1` renders the Deploy view
with folder `repo1`, while the empty hash renders the repository
list. -/
theorem routerStatusPattern_witness :
    routerView "#/status/repo1" = RouteView.deploy
      ∧ deployFolder "#/status/repo1" ≠ ""
      ∧ routerView "" = RouteView.repos := by
  have h1 := routerStatusPattern "#/status/repo1"
  have h0 := routerStatusPattern ""
  have hdeploy : routerView "#/status/repo1" = RouteView.deploy :=
    h1.1.mpr ⟨"", "repo1", by decide, by decide, by decide⟩
  have hfold := h1.2.2 hdeploy
  refine ⟨hdeploy, hfold.1, ?_⟩
  apply h0.2.1.mpr
  rintro ⟨pre, f, hp, hne, -⟩
  have hlen := congrArg String.length hp
  rw [String.length_append, String.length_append] at hlen
  have h9 : ("#/status/" : String).length = 9 := by decide
  have hz : ("" : String).length = 0 := rfl
  rw [h9, hz] at hlen
  omega

end MultirepoDeploy
